import Mathlib

/-!
# Verification of the wallet UTXO discovery / selection / assembly pipeline

Shallow embedding of `src/main.rs` and `src/wallet_prover_ffi.rs` of the
`wallet` crate: the field-element hex codec, the UTXO selector
(`select_utxos` with its `fr_gte` comparison), the transaction assembler
(`construct_transfer_tx`), the linked-list UTXO discovery loop, the UTXO
fetch loop, the prover-response parser (`parse_proof_result`), and the
post-proof address-check / submission phase of the two transfer flows.

External collaborators (the `zk` crate's `Fr` codec, the `l0` crate's
record types, the `hex` crate) are modelled from the specification's
data-model and codec contracts; everything else is translated directly
from the Rust source.
-/

namespace Wallet

/-- Modelled from the spec: the scalar field modulus of the `zk` crate's
`Fr` type ("an element of a fixed prime field, canonically serialized as a
32-byte string").  The concrete value is the standard 254-bit scalar-field
modulus used by arkworks-style proving systems; the development only uses
that it is positive, larger than the small constants appearing in the
wallet, and smaller than `2^256`. -/
def P : Nat := 21888242871839275222246405745257275088548364400416034343698204186575808495617

/-- Modelled from the spec: the `zk` crate's field element type `Fr`. -/
abbrev Fr := ZMod P

instance : NeZero P := ⟨by decide⟩

/-! ## Byte-level codec (`Fr::enc` / `Fr::dec` of the `zk` crate, and the
`hex` crate), modelled from the spec's codec contract (§4.1): canonical
fixed-width 32-byte big-endian, left-zero-padded; decode fails if the
byte length or numeric range is invalid for the field. -/

/-- Big-endian base-256 digits of `n`, exactly `k` bytes, left-zero-padded,
prepended to `acc` (accumulator form, so that it also reduces well). -/
def natToBytesBE (n : Nat) : Nat → List Nat → List Nat
  | 0, acc => acc
  | k + 1, acc => natToBytesBE (n / 256) k (n % 256 :: acc)

/-- Append-style characterization of `natToBytesBE`, used in proofs. -/
def natToBytesBESpec (n : Nat) : Nat → List Nat
  | 0 => []
  | k + 1 => natToBytesBESpec (n / 256) k ++ [n % 256]

/-- Value of a big-endian byte list. -/
def bytesToNatBE (bs : List Nat) : Nat :=
  bs.foldl (fun acc b => acc * 256 + b) 0

/-- Modelled from the spec: `Fr::enc` of the `zk` crate, the canonical
32-byte big-endian serialization of a scalar. -/
def frEnc (x : Fr) : List Nat := natToBytesBE x.val 32 []

/-- Modelled from the spec: `Fr::dec` of the `zk` crate; fails
(`MalformedScalar`) if the byte length or numeric range is invalid. -/
def frDec (bs : List Nat) : Except Unit Fr :=
  if bs.length = 32 then
    if bytesToNatBE bs < P then .ok ((bytesToNatBE bs : Nat) : Fr)
    else .error ()
  else .error ()

/-- Low nibble to lowercase hex character (as produced by `hex::encode`). -/
def nibbleToChar (n : Nat) : Char :=
  if n < 10 then Char.ofNat (48 + n) else Char.ofNat (97 + (n - 10))

/-- Hex character to nibble (as accepted by `hex::decode`). -/
def charToNibble (c : Char) : Option Nat :=
  if 48 ≤ c.toNat ∧ c.toNat ≤ 57 then some (c.toNat - 48)
  else if 97 ≤ c.toNat ∧ c.toNat ≤ 102 then some (c.toNat - 97 + 10)
  else if 65 ≤ c.toNat ∧ c.toNat ≤ 70 then some (c.toNat - 65 + 10)
  else none

/-- Modelled from the `hex` crate: `hex::encode` on a byte list. -/
def hexEncodeBytes : List Nat → List Char
  | [] => []
  | b :: bs => nibbleToChar (b / 16 % 16) :: nibbleToChar (b % 16) :: hexEncodeBytes bs

/-- Modelled from the `hex` crate: `hex::decode`; fails on odd length or a
non-hex character. -/
def hexDecodeChars : List Char → Option (List Nat)
  | [] => some []
  | [_] => none
  | c1 :: c2 :: cs =>
    match charToNibble c1, charToNibble c2, hexDecodeChars cs with
    | some h, some l, some rest => some ((h * 16 + l) :: rest)
    | _, _, _ => none

/-- `HexConverter::to_hex` for `Fr` (src/main.rs:192-197): serialize, pad
on the left to 32 bytes, hex-render.  Since the canonical serialization is
already 32 bytes, the padding contributes nothing. -/
def frToHex (x : Fr) : String :=
  ⟨hexEncodeBytes (List.replicate (32 - (frEnc x).length) 0 ++ frEnc x)⟩

/-- `HexConverter::from_hex` for `Fr` (src/main.rs:199-202): hex-decode,
then `Fr::dec`. -/
def frFromHex (s : String) : Except Unit Fr :=
  match hexDecodeChars s.data with
  | none => .error ()
  | some bs => frDec bs

/-! ### Codec round-trip lemmas -/

theorem bytesToNatBE_append_singleton (bs : List Nat) (b : Nat) :
    bytesToNatBE (bs ++ [b]) = bytesToNatBE bs * 256 + b := by
  simp [bytesToNatBE, List.foldl_append]

theorem natToBytesBE_eq_spec (k : Nat) :
    ∀ n acc, natToBytesBE n k acc = natToBytesBESpec n k ++ acc := by
  induction k with
  | zero => intro n acc; rfl
  | succ k ih =>
    intro n acc
    rw [natToBytesBE, natToBytesBESpec, ih, List.append_assoc]
    rfl

theorem natToBytesBESpec_length (n k : Nat) : (natToBytesBESpec n k).length = k := by
  induction k generalizing n with
  | zero => rfl
  | succ k ih => simp [natToBytesBESpec, ih]

theorem bytesToNatBE_natToBytesBESpec (k : Nat) :
    ∀ n, n < 256 ^ k → bytesToNatBE (natToBytesBESpec n k) = n := by
  induction k with
  | zero =>
    intro n hn
    simp [Nat.pow_zero] at hn
    simp [natToBytesBESpec, bytesToNatBE, hn]
  | succ k ih =>
    intro n hn
    rw [natToBytesBESpec, bytesToNatBE_append_singleton, ih (n / 256)]
    · omega
    · have : 256 ^ (k + 1) = 256 ^ k * 256 := by ring
      omega

theorem natToBytesBESpec_bytes_lt (n k : Nat) :
    ∀ b ∈ natToBytesBESpec n k, b < 256 := by
  induction k generalizing n with
  | zero => intro b hb; simp [natToBytesBESpec] at hb
  | succ k ih =>
    intro b hb
    simp only [natToBytesBESpec, List.mem_append, List.mem_singleton] at hb
    rcases hb with hb | hb
    · exact ih _ _ hb
    · subst hb; exact Nat.mod_lt _ (by omega)

theorem frEnc_eq_spec (x : Fr) : frEnc x = natToBytesBESpec x.val 32 := by
  rw [frEnc, natToBytesBE_eq_spec, List.append_nil]

theorem charToNibble_nibbleToChar (n : Nat) (hn : n < 16) :
    charToNibble (nibbleToChar n) = some n := by
  interval_cases n <;> rfl

theorem hexDecode_hexEncode (bs : List Nat) (h : ∀ b ∈ bs, b < 256) :
    hexDecodeChars (hexEncodeBytes bs) = some bs := by
  induction bs with
  | nil => rfl
  | cons b bs ih =>
    have hb : b < 256 := h b (List.mem_cons_self b bs)
    have h1 : b / 16 % 16 < 16 := Nat.mod_lt _ (by omega)
    have h2 : b % 16 < 16 := Nat.mod_lt _ (by omega)
    have hd : b / 16 % 16 = b / 16 := Nat.mod_eq_of_lt (by omega)
    rw [hexEncodeBytes, hexDecodeChars,
        charToNibble_nibbleToChar _ h1, charToNibble_nibbleToChar _ h2,
        ih (fun x hx => h x (List.mem_cons_of_mem _ hx))]
    have hv : b / 16 % 16 * 16 + b % 16 = b := by
      rw [hd]; omega
    show some ((b / 16 % 16 * 16 + b % 16) :: bs) = some (b :: bs)
    rw [hv]

theorem P_lt : P < 256 ^ 32 := by decide

theorem frEnc_length (x : Fr) : (frEnc x).length = 32 := by
  rw [frEnc_eq_spec]
  exact natToBytesBESpec_length _ _

theorem frEnc_bytes_lt (x : Fr) : ∀ b ∈ frEnc x, b < 256 := by
  rw [frEnc_eq_spec]
  exact natToBytesBESpec_bytes_lt _ _

theorem frDec_frEnc (x : Fr) : frDec (frEnc x) = .ok x := by
  have hval : x.val < P := ZMod.val_lt x
  have hrt : bytesToNatBE (frEnc x) = x.val := by
    rw [frEnc_eq_spec]
    exact bytesToNatBE_natToBytesBESpec 32 x.val (lt_trans hval P_lt)
  rw [frDec, if_pos (frEnc_length x), hrt, if_pos hval, ZMod.natCast_val,
      ZMod.cast_id]

theorem frToHex_eq (x : Fr) : frToHex x = ⟨hexEncodeBytes (frEnc x)⟩ := by
  rw [frToHex, frEnc_length]
  simp

theorem frFromHex_eq_of_decode (s : String) (bs : List Nat)
    (h : hexDecodeChars s.data = some bs) : frFromHex s = frDec bs := by
  unfold frFromHex
  rw [h]

theorem frFromHex_frToHex (x : Fr) : frFromHex (frToHex x) = .ok x :=
  Eq.trans
    (Eq.trans
      (congrArg frFromHex (frToHex_eq x))
      (frFromHex_eq_of_decode ⟨hexEncodeBytes (frEnc x)⟩ (frEnc x)
        (hexDecode_hexEncode (frEnc x) (frEnc_bytes_lt x))))
    (frDec_frEnc x)

/-! ## Data model (records of the `l0` crate, modelled from the spec §3) -/

/-- Modelled from the spec: the `l0` crate's output record `Out`
`{ amount, owner, data }`. -/
structure Out where
  amount : Fr
  owner : Fr
  data : List Fr
deriving DecidableEq, Repr

/-- Modelled from the spec: `Out::default()`, the "default/empty output"
placeholder — zero amount, zero owner, empty payload. -/
def Out.defaultOut : Out := ⟨0, 0, []⟩

/-- Modelled from the spec: the `l0` crate's transaction record `Tx`
`{ ix, iy, ox, oy }` — two consumed UTXO ids and two created outputs. -/
structure Tx where
  ix : Fr
  iy : Fr
  ox : Out
  oy : Out
deriving DecidableEq, Repr

/-- Modelled from the spec: the `l0` crate's witnessed/proved transaction
`Wp { vk, proof, val }`; `vk` and `proof` are opaque byte blobs. -/
structure Wp where
  vk : List Nat
  proof : List Nat
  val : Tx
deriving DecidableEq, Repr

/-! ## UTXO selector (src/main.rs:234-264) -/

/-- `fr_gte` (src/main.rs:234-237): the reference "greater-or-equal"
comparison over field elements; it computes the field difference, discards
it, and unconditionally returns `true`. -/
def fr_gte (fr1 fr2 : Fr) : Bool :=
  let _diff := fr1 - fr2
  true

/-- Single-UTXO pass of `select_utxos` (src/main.rs:247-252): first entry,
in discovery order, whose amount passes `fr_gte` against `required`. -/
def findSingle (required : Fr) : List (Fr × Out) → Option (Fr × Out)
  | [] => none
  | p :: rest => if fr_gte p.2.amount required then some p else findSingle required rest

/-- Inner pairwise loop of `select_utxos` (src/main.rs:255-260): pair `p`
with each later entry in order, returning the first whose summed amount
passes `fr_gte` against `required`. -/
def findPairWith (p : Fr × Out) (required : Fr) :
    List (Fr × Out) → Option ((Fr × Out) × (Fr × Out))
  | [] => none
  | q :: rest =>
    if fr_gte (p.2.amount + q.2.amount) required then some (p, q)
    else findPairWith p required rest

/-- Outer pairwise loop of `select_utxos` (src/main.rs:254-261): all
unordered pairs `(i, j)`, `i < j`, in discovery order. -/
def findPair (required : Fr) : List (Fr × Out) → Option ((Fr × Out) × (Fr × Out))
  | [] => none
  | p :: rest =>
    match findPairWith p required rest with
    | some r => some r
    | none => findPair required rest

/-- `select_utxos` (src/main.rs:239-264): empty set fails; otherwise the
single-UTXO pass with `required = amount + 3`, then the pairwise pass. -/
def select_utxos (utxos : List (Fr × Out)) (amount : Fr) :
    Option ((Fr × Out) × (Fr × Out)) :=
  if utxos.isEmpty then none
  else
    let fee : Fr := 3
    let required : Fr := amount + fee
    match findSingle required utxos with
    | some p => some (p, ((0 : Fr), Out.defaultOut))
    | none => findPair required utxos

/-! ## Transaction assembler (src/main.rs:266-294) -/

/-- `construct_transfer_tx` (src/main.rs:266-294): payment output to `to`
with the reserved three-zero payload, change output
`total_input - amount - fee` to `change_to` with empty payload.  All
arithmetic is field arithmetic; the function is total and never fails. -/
def construct_transfer_tx (input1 input2 : Fr × Out) (toOwner amount change_to : Fr) : Tx :=
  let total_input := input1.2.amount + input2.2.amount
  let fee : Fr := 3
  let change := total_input - amount - fee
  let fee_data : List Fr := [0, 0, 0]
  { ix := input1.1
    iy := input2.1
    ox := { amount := amount, owner := toOwner, data := fee_data }
    oy := { amount := change, owner := change_to, data := [] } }

/-! ## UTXO discovery loop (src/main.rs:382-402 and 507-527)

The loop is inline in the `Transfer` and `TransferPermissionless` arms of
`main` (both arms are textually identical here).  `resp id` models one
`get_next_id_of_utxo_by_owner(id, owner)` call for the fixed target owner:
`none` is an RPC failure or absent result (the `_ => break` arm), and
`some s` is the returned hex string.  A non-empty string that fails hex or
scalar decoding propagates an error out of the whole flow (the `?`
operator), discarding the ids accumulated so far. -/
def discoverUtxoIds (resp : Fr → Option String) : Nat → Fr → Except Unit (List Fr)
  | 0, _ => .ok []
  | fuel + 1, current =>
    match resp current with
    | none => .ok []
    | some next_hex =>
      if next_hex = "" then .ok []
      else
        match frFromHex next_hex with
        | .error _ => .error ()
        | .ok next_id =>
          if next_id = 0 then .ok []
          else (discoverUtxoIds resp fuel next_id).map (fun rest => next_id :: rest)

/-- The discovery traversal as run by both transfer flows: seed id `8`,
hop cap `100` (src/main.rs:383-385 and 508-510). -/
def discoverFromSeed (resp : Fr → Option String) : Except Unit (List Fr) :=
  discoverUtxoIds resp 100 (8 : Fr)

/-! ## UTXO fetch loop (src/main.rs:406-418 and 531-543)

For each discovered id the flow calls `get_utxo` and `decode_utxo`; an RPC
failure (`Err(_) => continue`) or a decode failure (the `if let Ok(utxo)`
guard) skips that id.  `fetchResp` models the `get_utxo` call and
`decodeUtxo` models `decode_utxo` (hex decode plus the `l0` crate's
`Out::dec`). -/
def fetchUtxos (fetchResp : Fr → Option String) (decodeUtxo : String → Option Out) :
    List Fr → List (Fr × Out)
  | [] => []
  | id :: rest =>
    match fetchResp id with
    | none => fetchUtxos fetchResp decodeUtxo rest
    | some utxo_hex =>
      match decodeUtxo utxo_hex with
      | none => fetchUtxos fetchResp decodeUtxo rest
      | some utxo => (id, utxo) :: fetchUtxos fetchResp decodeUtxo rest

/-! ## Prover response parsing (src/wallet_prover_ffi.rs:118-131) -/

/-- Rust's `str::split(',')`: the comma-separated pieces of a character
list; the empty string yields one empty piece. -/
def splitComma : List Char → List (List Char)
  | [] => [[]]
  | c :: cs =>
    if c = ',' then [] :: splitComma cs
    else
      match splitComma cs with
      | [] => [[c]]
      | r :: rs => (c :: r) :: rs

/-- `parse_proof_result` (src/wallet_prover_ffi.rs:118-131): accepts
exactly three comma-joined fields, errors otherwise. -/
def parse_proof_result (s : String) : Except Unit (String × String × String) :=
  match splitComma s.data with
  | [a, b, c] => .ok (⟨a⟩, ⟨b⟩, ⟨c⟩)
  | _ => .error ()

/-! ## Post-proof address check and submission (src/main.rs:453-492 and
574-609)

What each flow does with the prover's `(proof_hex, vk_hex, addr_hex)`
triple, up to the decision whether `submit_transaction` is reached.
`proofDec` and `vkDec` model the `zk` crate's `Proof::dec` and `Vk::dec`
on the hex-decoded bytes. -/

inductive SubmitOutcome where
  /-- `submit_transaction` is called with this witnessed transaction. -/
  | submitted (wp : Wp)
  /-- the address-mismatch check fired: the flow prints the mismatch
  diagnostic and returns without submitting. -/
  | addressMismatch
  /-- any other abort before submission (prover failure, decode error). -/
  | aborted
deriving DecidableEq, Repr

/-- The authenticated `Transfer` flow from the prover call to the
submission decision (src/main.rs:453-480): decode the attested address,
compare it with the locally derived `from_address`, then decode proof and
verification key and submit. -/
def transferSubmitPhase (proofDec vkDec : List Nat → Except Unit (List Nat))
    (from_address : Fr) (tx : Tx)
    (proofRes : Except Unit (String × String × String)) : SubmitOutcome :=
  match proofRes with
  | .error _ => .aborted
  | .ok (proof_hex, vk_hex, addr_hex) =>
    match frFromHex addr_hex with
    | .error _ => .aborted
    | .ok addr =>
      if addr ≠ from_address then .addressMismatch
      else
        match hexDecodeChars proof_hex.data with
        | none => .aborted
        | some proof_bytes =>
          match proofDec proof_bytes with
          | .error _ => .aborted
          | .ok prf =>
            match hexDecodeChars vk_hex.data with
            | none => .aborted
            | some vk_bytes =>
              match vkDec vk_bytes with
              | .error _ => .aborted
              | .ok vk => .submitted ⟨vk, prf, tx⟩

/-- The `TransferPermissionless` flow from the prover call to the
submission decision (src/main.rs:574-602): hex-decode the proof, decode
the attested address, compare it with the caller-declared `from` scalar,
then finish decoding and submit. -/
def transferPermissionlessSubmitPhase (proofDec vkDec : List Nat → Except Unit (List Nat))
    (from_fr : Fr) (tx : Tx)
    (proofRes : Except Unit (String × String × String)) : SubmitOutcome :=
  match proofRes with
  | .error _ => .aborted
  | .ok (proof_hex, vk_hex, addr_hex) =>
    match hexDecodeChars proof_hex.data with
    | none => .aborted
    | some proof_bytes =>
      match frFromHex addr_hex with
      | .error _ => .aborted
      | .ok addr =>
        if addr ≠ from_fr then .addressMismatch
        else
          match proofDec proof_bytes with
          | .error _ => .aborted
          | .ok prf =>
            match hexDecodeChars vk_hex.data with
            | none => .aborted
            | some vk_bytes =>
              match vkDec vk_bytes with
              | .error _ => .aborted
              | .ok vk => .submitted ⟨vk, prf, tx⟩

/-! ## Supporting lemmas -/

theorem hexEncodeBytes_length (bs : List Nat) :
    (hexEncodeBytes bs).length = 2 * bs.length := by
  induction bs with
  | nil => rfl
  | cons b bs ih => simp [hexEncodeBytes, ih]; omega

theorem frToHex_data_length (x : Fr) : (frToHex x).data.length = 64 := by
  rw [frToHex_eq]
  show (hexEncodeBytes (frEnc x)).length = 64
  rw [hexEncodeBytes_length, frEnc_length]

theorem frToHex_ne_empty (x : Fr) : frToHex x ≠ "" := by
  intro h
  have hd : (frToHex x).data.length = 0 := by rw [h]; rfl
  rw [frToHex_data_length] at hd
  exact absurd hd (by decide)

theorem discoverUtxoIds_length_le (resp : Fr → Option String) :
    ∀ (fuel : Nat) (cur : Fr) (l : List Fr),
      discoverUtxoIds resp fuel cur = .ok l → l.length ≤ fuel := by
  intro fuel
  induction fuel with
  | zero =>
    intro cur l h
    rw [discoverUtxoIds] at h
    cases h
    exact Nat.le_refl 0
  | succ fuel ih =>
    intro cur l h
    cases hr : resp cur with
    | none =>
      simp only [discoverUtxoIds, hr] at h
      cases h
      exact Nat.zero_le _
    | some s =>
      simp only [discoverUtxoIds, hr] at h
      by_cases hs : s = ""
      · rw [if_pos hs] at h
        cases h
        exact Nat.zero_le _
      · rw [if_neg hs] at h
        cases hd : frFromHex s with
        | error e =>
          simp only [hd] at h
          cases h
        | ok next =>
          simp only [hd] at h
          by_cases hz : next = 0
          · rw [if_pos hz] at h
            cases h
            exact Nat.zero_le _
          · rw [if_neg hz] at h
            cases hrec : discoverUtxoIds resp fuel next with
            | error e =>
              simp only [hrec, Except.map] at h
              cases h
            | ok rest =>
              simp only [hrec, Except.map] at h
              cases h
              have := ih next rest hrec
              simp only [List.length_cons]
              omega

theorem discoverUtxoIds_chain (resp : Fr → Option String) :
    ∀ (k fuel : Nat) (chain : Nat → Fr), k ≤ fuel →
      (∀ i, i < k → resp (chain i) = some (frToHex (chain (i + 1))) ∧ chain (i + 1) ≠ 0) →
      (k < fuel → resp (chain k) = some (frToHex 0)) →
      discoverUtxoIds resp fuel (chain 0) =
        .ok ((List.range k).map fun i => chain (i + 1)) := by
  intro k
  induction k with
  | zero =>
    intro fuel chain _ _ hterm
    cases fuel with
    | zero => rfl
    | succ fuel =>
      simp only [discoverUtxoIds, hterm (Nat.succ_pos _),
          if_neg (frToHex_ne_empty 0), frFromHex_frToHex]
      simp
  | succ k ih =>
    intro fuel chain hk hstep hterm
    cases fuel with
    | zero => omega
    | succ fuel =>
      obtain ⟨hresp0, hne0⟩ := hstep 0 (Nat.succ_pos _)
      have hrec := ih fuel (fun i => chain (i + 1)) (by omega)
        (fun i hi => hstep (i + 1) (by omega))
        (fun hlt => hterm (by omega))
      simp only [discoverUtxoIds, hresp0, if_neg (frToHex_ne_empty _),
          frFromHex_frToHex, if_neg hne0, hrec]
      simp [Except.map, List.range_succ_eq_map, List.map_map, Function.comp]

theorem discoverUtxoIds_error_of_bad (resp : Fr → Option String) :
    ∀ (j fuel : Nat) (chain : Nat → Fr) (s : String), j < fuel →
      (∀ i, i < j → resp (chain i) = some (frToHex (chain (i + 1))) ∧ chain (i + 1) ≠ 0) →
      resp (chain j) = some s → s ≠ "" → frFromHex s = .error () →
      discoverUtxoIds resp fuel (chain 0) = .error () := by
  intro j
  induction j with
  | zero =>
    intro fuel chain s hj _ hbad hne hdec
    cases fuel with
    | zero => omega
    | succ fuel =>
      simp only [discoverUtxoIds, hbad, if_neg hne, hdec]
  | succ j ih =>
    intro fuel chain s hj hstep hbad hne hdec
    cases fuel with
    | zero => omega
    | succ fuel =>
      obtain ⟨hresp0, hne0⟩ := hstep 0 (Nat.succ_pos _)
      have hrec := ih fuel (fun i => chain (i + 1)) s (by omega)
        (fun i hi => hstep (i + 1) (by omega)) hbad hne hdec
      simp only [discoverUtxoIds, hresp0, if_neg (frToHex_ne_empty _),
          frFromHex_frToHex, if_neg hne0, hrec]
      rfl

theorem splitComma_ne_nil (l : List Char) : splitComma l ≠ [] := by
  cases l with
  | nil => simp [splitComma]
  | cons c cs =>
    rw [splitComma]
    by_cases hc : c = ','
    · rw [if_pos hc]; simp
    · rw [if_neg hc]
      cases splitComma cs <;> simp

theorem splitComma_no_comma (a : List Char) (ha : ',' ∉ a) : splitComma a = [a] := by
  induction a with
  | nil => rfl
  | cons c cs ih =>
    have hc : c ≠ ',' := fun h => ha (h ▸ List.mem_cons_self c cs)
    have hcs : ',' ∉ cs := fun h => ha (List.mem_cons_of_mem c h)
    rw [splitComma, if_neg hc, ih hcs]

theorem splitComma_append (a rest : List Char) (ha : ',' ∉ a) :
    splitComma (a ++ ',' :: rest) = a :: splitComma rest := by
  induction a with
  | nil =>
    rw [List.nil_append, splitComma, if_pos rfl]
  | cons c cs ih =>
    have hc : c ≠ ',' := fun h => ha (h ▸ List.mem_cons_self c cs)
    have hcs : ',' ∉ cs := fun h => ha (List.mem_cons_of_mem c h)
    rw [List.cons_append, splitComma, if_neg hc, ih hcs]

/-! ## Claim theorems -/

/-- C1: the claimed greedy selection does not hold on the code.  `fr_gte`
unconditionally reports `true`, so the single-UTXO pass of `select_utxos`
returns the very first discovered UTXO even when its amount (here 1) is
strictly below the required value `amount + 3` (here 13) over the integer
representatives. -/
theorem select_utxos_ignores_required_value :
    (∀ a b : Fr, fr_gte a b = true)
    ∧ select_utxos [((1 : Fr), ⟨1, 0, []⟩)] 10 =
        some (((1 : Fr), ⟨1, 0, []⟩), ((0 : Fr), Out.defaultOut))
    ∧ ((1 : Fr)).val < ((10 : Fr) + 3).val :=
  ⟨fun _ _ => rfl, by decide, by decide⟩

/-- C2: the failure contract does not hold on the code.  The empty set
does return `none`, but for UTXO amounts `[5, 5]` with amount 10 (required
13, total 10) `select_utxos` succeeds with the first 5-unit UTXO instead
of reporting insufficient funds, because `fr_gte` is always `true`. -/
theorem select_utxos_succeeds_on_insufficient_funds :
    (∀ a : Fr, select_utxos [] a = none)
    ∧ select_utxos [((1 : Fr), ⟨5, 0, []⟩), ((2 : Fr), ⟨5, 0, []⟩)] 10 =
        some (((1 : Fr), ⟨5, 0, []⟩), ((0 : Fr), Out.defaultOut))
    ∧ ((5 : Fr)).val + ((5 : Fr)).val < ((10 : Fr) + 3).val :=
  ⟨fun _ => rfl, by decide, by decide⟩

/-- C3: `construct_transfer_tx` does not fail loudly on a negative change.
With two 5-unit inputs, amount 10 and fee 3 it silently wraps in the
field: the change output's amount has integer representative `P - 3`,
larger than the whole input total, and a `Tx` is still produced. -/
theorem construct_transfer_tx_wraps_negative_change :
    (construct_transfer_tx ((1 : Fr), ⟨5, 0, []⟩) ((2 : Fr), ⟨5, 0, []⟩)
        7 10 9).oy.amount.val = P - 3
    ∧ ((5 : Fr)).val + ((5 : Fr)).val < ((10 : Fr)).val + 3
    ∧ ((5 : Fr)).val + ((5 : Fr)).val < P - 3 :=
  ⟨by decide, by decide, by decide⟩

/-- C4: fee conservation holds for every transaction the assembler
produces, as an exact field equation:
`ox.amount + oy.amount + fee = input1.amount + input2.amount` with
`fee = 3`; and the placeholder second input's default output has amount 0,
so it contributes 0 to the right-hand side. -/
theorem construct_transfer_tx_fee_conservation (input1 input2 : Fr × Out)
    (toOwner amount change_to : Fr) :
    (construct_transfer_tx input1 input2 toOwner amount change_to).ox.amount
      + (construct_transfer_tx input1 input2 toOwner amount change_to).oy.amount + 3
      = input1.2.amount + input2.2.amount
    ∧ Out.defaultOut.amount = 0 := by
  constructor
  · show amount + (input1.2.amount + input2.2.amount - amount - 3) + 3 = _
    ring
  · rfl

/-- C5: discovery termination.  From seed id 8, a chain whose successor
becomes the zero scalar after `k` hops (`k` within the 100-hop cap) yields
exactly the `k` chain ids in order; and against any server whatsoever the
traversal returns at most 100 ids. -/
theorem discovery_terminates_exactly (resp : Fr → Option String) (chain : Nat → Fr)
    (k : Nat) (hk : k ≤ 100) (h0 : chain 0 = 8)
    (hstep : ∀ i, i < k → resp (chain i) = some (frToHex (chain (i + 1))) ∧ chain (i + 1) ≠ 0)
    (hterm : k < 100 → resp (chain k) = some (frToHex 0)) :
    discoverFromSeed resp = .ok ((List.range k).map fun i => chain (i + 1))
    ∧ ∀ (resp2 : Fr → Option String) (l : List Fr),
        discoverFromSeed resp2 = .ok l → l.length ≤ 100 := by
  constructor
  · rw [discoverFromSeed, ← h0]
    exact discoverUtxoIds_chain resp k 100 chain hk hstep hterm
  · intro resp2 l hl
    exact discoverUtxoIds_length_le resp2 100 8 l hl

/-- Witness for C5: a concrete one-hop chain `8 → 5 → 0` yields exactly
`[5]`, and the 100-id bound holds for every server. -/
theorem discovery_terminates_exactly_witness :
    discoverFromSeed (fun x => if x = (8 : Fr) then some (frToHex 5)
        else if x = (5 : Fr) then some (frToHex 0) else none)
      = .ok [(5 : Fr)]
    ∧ ∀ (resp2 : Fr → Option String) (l : List Fr),
        discoverFromSeed resp2 = .ok l → l.length ≤ 100 :=
  discovery_terminates_exactly
    (fun x => if x = (8 : Fr) then some (frToHex 5)
        else if x = (5 : Fr) then some (frToHex 0) else none)
    (fun j => if j = 0 then (8 : Fr) else if j = 1 then (5 : Fr) else 0)
    1 (by decide) (by decide)
    (by
      intro i hi
      have hi0 : i = 0 := by omega
      subst hi0
      exact ⟨by decide, by decide⟩)
    (fun _ => by decide)

/-- C6: in both transfer flows, when the prover-attested address decodes
to a scalar different from the expected sender/signer address, the flow
stops at the address check: the authenticated flow ends in the mismatch
diagnostic and the permissionless flow never reaches submission. -/
theorem address_mismatch_blocks_submission
    (proofDec vkDec : List Nat → Except Unit (List Nat)) (expected : Fr) (tx : Tx)
    (proof_hex vk_hex addr_hex : String) (addr : Fr)
    (hdec : frFromHex addr_hex = .ok addr) (hne : addr ≠ expected) :
    transferSubmitPhase proofDec vkDec expected tx (.ok (proof_hex, vk_hex, addr_hex))
        = .addressMismatch
    ∧ (∀ wp : Wp, transferSubmitPhase proofDec vkDec expected tx
          (.ok (proof_hex, vk_hex, addr_hex)) ≠ .submitted wp)
    ∧ (∀ wp : Wp, transferPermissionlessSubmitPhase proofDec vkDec expected tx
          (.ok (proof_hex, vk_hex, addr_hex)) ≠ .submitted wp) := by
  have hauth : transferSubmitPhase proofDec vkDec expected tx
      (.ok (proof_hex, vk_hex, addr_hex)) = .addressMismatch := by
    simp only [transferSubmitPhase, hdec, if_pos hne]
  refine ⟨hauth, ?_, ?_⟩
  · intro wp hcon
    rw [hauth] at hcon
    cases hcon
  · intro wp
    cases hp : hexDecodeChars proof_hex.data with
    | none =>
      simp only [transferPermissionlessSubmitPhase, hp]
      intro hcon
      cases hcon
    | some proof_bytes =>
      simp only [transferPermissionlessSubmitPhase, hp, hdec, if_pos hne]
      intro hcon
      cases hcon

/-- Witness for C6: attested address 5 against expected address 7 blocks
submission in both flows. -/
theorem address_mismatch_blocks_submission_witness :
    transferSubmitPhase (fun _ => .ok []) (fun _ => .ok []) (7 : Fr)
        ⟨0, 0, Out.defaultOut, Out.defaultOut⟩
        (.ok ("aa", "bb", frToHex 5)) = .addressMismatch
    ∧ (∀ wp : Wp, transferSubmitPhase (fun _ => .ok []) (fun _ => .ok []) (7 : Fr)
          ⟨0, 0, Out.defaultOut, Out.defaultOut⟩
          (.ok ("aa", "bb", frToHex 5)) ≠ .submitted wp)
    ∧ (∀ wp : Wp, transferPermissionlessSubmitPhase (fun _ => .ok []) (fun _ => .ok [])
          (7 : Fr) ⟨0, 0, Out.defaultOut, Out.defaultOut⟩
          (.ok ("aa", "bb", frToHex 5)) ≠ .submitted wp) :=
  address_mismatch_blocks_submission (fun _ => .ok []) (fun _ => .ok []) 7
    ⟨0, 0, Out.defaultOut, Out.defaultOut⟩ "aa" "bb" (frToHex 5) 5
    (by rfl) (by decide)

/-- C7: the field-element codec is canonical: the byte serialization of
every scalar is exactly 32 bytes, `to_hex` renders exactly those bytes
(the left padding contributes nothing) as 64 hex characters, and
`from_hex (to_hex x)` round-trips to the same scalar. -/
theorem fr_codec_canonical_roundtrip (x : Fr) :
    (frEnc x).length = 32
    ∧ (frToHex x).data = hexEncodeBytes (frEnc x)
    ∧ (frToHex x).data.length = 64
    ∧ frFromHex (frToHex x) = .ok x :=
  ⟨frEnc_length x, congrArg String.data (frToHex_eq x), frToHex_data_length x,
    frFromHex_frToHex x⟩

/-- C8: `parse_proof_result` accepts exactly three comma-joined fields:
`a,b,c` (fields free of commas) parses to the triple `(a, b, c)`, while a
two-field string, a four-field string, and the empty string all produce
the malformed-response error. -/
theorem parse_proof_result_exactly_three (a b c d : List Char)
    (ha : ',' ∉ a) (hb : ',' ∉ b) (hc : ',' ∉ c) :
    parse_proof_result ⟨a ++ ',' :: (b ++ ',' :: c)⟩ = .ok (⟨a⟩, ⟨b⟩, ⟨c⟩)
    ∧ parse_proof_result ⟨a ++ ',' :: b⟩ = .error ()
    ∧ parse_proof_result ⟨a ++ ',' :: (b ++ ',' :: (c ++ ',' :: d))⟩ = .error ()
    ∧ parse_proof_result "" = .error () := by
  refine ⟨?_, ?_, ?_, rfl⟩
  · have h1 : splitComma (a ++ ',' :: (b ++ ',' :: c)) = [a, b, c] := by
      rw [splitComma_append _ _ ha, splitComma_append _ _ hb, splitComma_no_comma _ hc]
    simp only [parse_proof_result, h1]
  · have h2 : splitComma (a ++ ',' :: b) = [a, b] := by
      rw [splitComma_append _ _ ha, splitComma_no_comma _ hb]
    simp only [parse_proof_result, h2]
  · have h3 : splitComma (a ++ ',' :: (b ++ ',' :: (c ++ ',' :: d)))
        = a :: b :: c :: splitComma d := by
      rw [splitComma_append _ _ ha, splitComma_append _ _ hb, splitComma_append _ _ hc]
    cases hsd : splitComma d with
    | nil => exact absurd hsd (splitComma_ne_nil d)
    | cons e es =>
      rw [hsd] at h3
      simp only [parse_proof_result, h3]

/-- Witness for C8: `"x,y,z"` parses to its three fields; `"x,y"`,
`"x,y,z,w"` and `""` are rejected. -/
theorem parse_proof_result_exactly_three_witness :
    parse_proof_result "x,y,z" = .ok ("x", "y", "z")
    ∧ parse_proof_result "x,y" = .error ()
    ∧ parse_proof_result "x,y,z,w" = .error ()
    ∧ parse_proof_result "" = .error () :=
  parse_proof_result_exactly_three ['x'] ['y'] ['z'] ['w']
    (by decide) (by decide) (by decide)

/-- C9: the fetch loop is best-effort: for every oracle behaviour of
`get_utxo` and `decode_utxo` and every id list, one failed fetch or decode
is skipped without aborting, and the accumulated result is exactly the
`(id, Out)` pairs whose fetch and decode both succeed, in chain order. -/
theorem fetchUtxos_exactly_successes (fetchResp : Fr → Option String)
    (decodeUtxo : String → Option Out) (ids : List Fr) :
    fetchUtxos fetchResp decodeUtxo ids
      = ids.filterMap
          (fun i => ((fetchResp i).bind decodeUtxo).map (fun u => (i, u))) := by
  induction ids with
  | nil => rfl
  | cons i rest ih =>
    cases hf : fetchResp i with
    | none => simp [fetchUtxos, hf, ih]
    | some s =>
      cases hd : decodeUtxo s with
      | none => simp [fetchUtxos, hf, hd, ih]
      | some u => simp [fetchUtxos, hf, hd, ih]

/-- C10: a non-empty next-id response that does not decode to a scalar
aborts the whole discovery (and hence the transfer) with a propagated
error — it is neither skipped nor treated as a chain terminator. -/
theorem malformed_next_id_aborts_transfer (resp : Fr → Option String)
    (chain : Nat → Fr) (j : Nat) (s : String) (hj : j < 100) (h0 : chain 0 = 8)
    (hstep : ∀ i, i < j → resp (chain i) = some (frToHex (chain (i + 1))) ∧ chain (i + 1) ≠ 0)
    (hbad : resp (chain j) = some s) (hne : s ≠ "")
    (hdec : frFromHex s = .error ()) :
    discoverFromSeed resp = .error () := by
  rw [discoverFromSeed, ← h0]
  exact discoverUtxoIds_error_of_bad resp j 100 chain s hj hstep hbad hne hdec

/-- Witness for C10: a server answering `"zz"` (not hex) at the seed makes
discovery fail outright instead of returning a list. -/
theorem malformed_next_id_aborts_transfer_witness :
    discoverFromSeed (fun x => if x = (8 : Fr) then some "zz" else none)
      = .error () :=
  malformed_next_id_aborts_transfer
    (fun x => if x = (8 : Fr) then some "zz" else none)
    (fun _ => 8) 0 "zz" (by decide) (by rfl)
    (by intro i hi; exact absurd hi (by omega)) (by rfl) (by decide) (by rfl)

end Wallet
